import Mathlib

/-!
Verification of the employee-ingestion service in `src/main.py`.

The service exposes two handlers over a SQLite store with two tables:

* `POST /upload-employees/` (`upload_employees`, main.py:70-129): parses an
  uploaded CSV/XLSX file into a table, checks required columns, inserts the
  missing company names (first commit), builds a name→id mapping, constructs
  Employee records row by row, bulk-inserts them (second commit), and on any
  exception rolls back the active transaction and reports a 500.
* `GET /employees/` (`get_employees`, main.py:131-151): reads all employees
  and, per employee, looks up its company by id to produce a denormalized
  response record.

Embedding choices:

* The relational store is a pair of lists (table contents in insertion
  order) together with the next auto-assigned primary key for each table.
  SQLAlchemy's `Column(..., unique=True)` constraints (`companies.company_name`,
  `employees.employee_id`, main.py:22 and main.py:28) are enforced at commit
  time: a commit whose staged rows would violate a unique constraint raises,
  modelled as `Except.error` carrying the exception text.
* A parsed pandas data frame is a `Table`: a list of column names plus one
  `Row` per record.  Cells are embedded at the type the handler coerces them
  to (`int(...)`, `str(...)`, `float(...)` on main.py:109-115); `SALARY` is a
  Python float, embedded as `Rat` since no claim depends on rounding.
  `MANAGER_ID` / `DEPARTMENT_ID` cells are `Option Int`: `none` is a
  null/empty cell (`pd.isnull`, main.py:114-115).
* The upstream file-extension and parse phases (main.py:72-81) reject bad
  input before any table exists; the claims under verification all start from
  a parsed table, so `upload_employees` here takes the parsed `Table`.
* Fallible steps return `Except String _` where the string is the exception
  text interpolated into `f"Database error: {str(e)}"` (main.py:127).
-/

/-- A row of the `companies` table (main.py:19-23). -/
structure Company where
  id : Nat
  company_name : String
deriving DecidableEq

/-- A row of the `employees` table (main.py:25-36).  `company_id` is a
nullable foreign key, hence `Option Nat`. -/
structure Employee where
  id : Nat
  employee_id : Int
  first_name : String
  last_name : String
  phone_number : String
  salary : Rat
  manager_id : Option Int
  department_id : Option Int
  company_id : Option Nat
deriving DecidableEq

/-- The relational store: both tables in insertion order plus the next
auto-assigned primary key of each. -/
structure Store where
  companies : List Company
  employees : List Employee
  nextCompanyId : Nat
  nextEmployeeId : Nat
deriving DecidableEq

/-- One parsed record of the uploaded file, with each cell at the type the
handler coerces it to (main.py:108-117). -/
structure Row where
  EMPLOYEE_ID : Int
  FIRST_NAME : String
  LAST_NAME : String
  PHONE_NUMBER : String
  COMPANY_NAME : String
  SALARY : Rat
  MANAGER_ID : Option Int
  DEPARTMENT_ID : Option Int
deriving DecidableEq

/-- A parsed data frame: its column names and its rows. -/
structure Table where
  columns : List String
  rows : List Row
deriving DecidableEq

/-- Response schema `UploadResponse` (main.py:51-54). -/
structure UploadResponse where
  message : String
  companies_created : Nat
  employees_created : Nat
deriving DecidableEq

/-- Response schema `EmployeeResponse` (main.py:56-64).  Note that
`company_name` is declared `str`, not `Optional[str]`. -/
structure EmployeeResponse where
  employee_id : Int
  first_name : String
  last_name : String
  phone_number : String
  salary : Rat
  manager_id : Option Int
  department_id : Option Int
  company_name : String
deriving DecidableEq

/-- Outcome of the upload handler: a 200 with an `UploadResponse`, a 400
(`HTTPException(status_code=400, detail=...)`), or a 500
(`HTTPException(status_code=500, detail=...)`). -/
inductive UploadOutcome where
  | ok (resp : UploadResponse)
  | err400 (detail : String)
  | err500 (detail : String)
deriving DecidableEq

/-- `required_columns` (main.py:83-86). -/
def required_columns : List String :=
  ["EMPLOYEE_ID", "FIRST_NAME", "LAST_NAME", "PHONE_NUMBER",
   "COMPANY_NAME", "SALARY", "MANAGER_ID", "DEPARTMENT_ID"]

/-- Helper for `drop_duplicates`: keeps each value not yet `seen`, in input
order. -/
def drop_duplicates_loop (seen : List String) : List String → List String
  | [] => []
  | x :: xs =>
      if x ∈ seen then drop_duplicates_loop seen xs
      else x :: drop_duplicates_loop (x :: seen) xs

/-- `df["COMPANY_NAME"].drop_duplicates().tolist()` (main.py:91): distinct
values in order of first appearance. -/
def drop_duplicates (l : List String) : List String :=
  drop_duplicates_loop [] l

/-- The distinct company names of the file, order of first appearance
(main.py:91). -/
def company_names_of (t : Table) : List String :=
  drop_duplicates (t.rows.map (·.COMPANY_NAME))

/-- `session.query(Company).filter(Company.company_name.in_(names)).all()`
(main.py:95 and main.py:102). -/
def existing_companies (s : Store) (names : List String) : List Company :=
  s.companies.filter (fun c => c.company_name ∈ names)

/-- The company names of the file that are not already in the store: the
list comprehension on main.py:97. -/
def new_names_of (s : Store) (t : Table) : List String :=
  (company_names_of t).filter
    (fun n => n ∉ (existing_companies s (company_names_of t)).map (·.company_name))

/-- Primary-key assignment for the staged `Company` objects at flush time. -/
def assignCompanyIds (start : Nat) : List String → List Company
  | [] => []
  | n :: rest => ⟨start, n⟩ :: assignCompanyIds (start + 1) rest

/-- `session.bulk_save_objects(new_companies); session.commit()`
(main.py:98-99).  The commit raises (an `IntegrityError`) when a staged name
collides with an existing row or with another staged row, by the `unique`
constraint on `companies.company_name` (main.py:22). -/
def commitNewCompanies (s : Store) (newNames : List String) : Except String Store :=
  if newNames.Nodup ∧ ∀ n ∈ newNames, n ∉ s.companies.map (·.company_name) then
    .ok { s with
          companies := s.companies ++ assignCompanyIds s.nextCompanyId newNames,
          nextCompanyId := s.nextCompanyId + newNames.length }
  else
    .error "UNIQUE constraint failed: companies.company_name"

/-- The store after the company commit (main.py:99), which is shown below
(`commitNewCompanies_in_upload`) never to raise in sequential execution. -/
def storeAfterCompanyCommit (s : Store) (t : Table) : Store :=
  { s with
    companies := s.companies ++ assignCompanyIds s.nextCompanyId (new_names_of s t),
    nextCompanyId := s.nextCompanyId + (new_names_of s t).length }

/-- The dict comprehension `{c.company_name: c.id for c in all_companies}`
(main.py:103) read at key `name`: a later entry overwrites an earlier one, so
lookup returns the id of the LAST company in query order bearing the name. -/
def company_name_to_id (companies : List Company) (name : String) : Option Nat :=
  ((companies.filter (fun c => c.company_name = name)).map (·.id)).getLast?

/-- A staged `Employee` object before the primary key is assigned
(main.py:108-117).  `company_id` is always set by the handler. -/
structure NewEmployee where
  employee_id : Int
  first_name : String
  last_name : String
  phone_number : String
  salary : Rat
  manager_id : Option Int
  department_id : Option Int
  company_id : Nat
deriving DecidableEq

/-- Construction of one `Employee(...)` object from a row (main.py:108-117).
The subscript `company_name_to_id[row["COMPANY_NAME"]]` raises `KeyError`
when the name is absent from the mapping. -/
def buildEmployee (lookup : String → Option Nat) (r : Row) : Except String NewEmployee :=
  match lookup r.COMPANY_NAME with
  | some cid =>
      .ok { employee_id := r.EMPLOYEE_ID
            first_name := r.FIRST_NAME
            last_name := r.LAST_NAME
            phone_number := r.PHONE_NUMBER
            salary := r.SALARY
            manager_id := if r.MANAGER_ID.isSome then r.MANAGER_ID else none
            department_id := if r.DEPARTMENT_ID.isSome then r.DEPARTMENT_ID else none
            company_id := cid }
  | none => .error ("KeyError: " ++ r.COMPANY_NAME)

/-- The `for _, row in df.iterrows()` loop (main.py:107-117): builds the
staged employees in row order, raising at the first failing row. -/
def buildEmployees (lookup : String → Option Nat) : List Row → Except String (List NewEmployee)
  | [] => .ok []
  | r :: rest =>
      match buildEmployee lookup r with
      | .error e => .error e
      | .ok ne =>
          match buildEmployees lookup rest with
          | .error e => .error e
          | .ok rest' => .ok (ne :: rest')

/-- Primary-key assignment for the staged `Employee` objects at flush time. -/
def assignEmployeeIds (start : Nat) : List NewEmployee → List Employee
  | [] => []
  | ne :: rest =>
      { id := start
        employee_id := ne.employee_id
        first_name := ne.first_name
        last_name := ne.last_name
        phone_number := ne.phone_number
        salary := ne.salary
        manager_id := ne.manager_id
        department_id := ne.department_id
        company_id := some ne.company_id } :: assignEmployeeIds (start + 1) rest

/-- `session.bulk_save_objects(employees_to_create); session.commit()`
(main.py:118-119).  The commit raises when a staged `employee_id` collides
with an existing row or another staged row, by the `unique` constraint on
`employees.employee_id` (main.py:28). -/
def commitNewEmployees (s : Store) (emps : List NewEmployee) : Except String Store :=
  if (emps.map (·.employee_id)).Nodup ∧
      ∀ ne ∈ emps, ne.employee_id ∉ s.employees.map (·.employee_id) then
    .ok { s with
          employees := s.employees ++ assignEmployeeIds s.nextEmployeeId emps,
          nextEmployeeId := s.nextEmployeeId + emps.length }
  else
    .error "UNIQUE constraint failed: employees.employee_id"

/-- The upload handler `upload_employees` (main.py:70-129) from the parsed
table on.  The `except` clause (main.py:125-127) rolls back the ACTIVE
transaction only: work committed on main.py:99 stays committed, so an
exception raised after that point returns the intermediate store, not the
original one. -/
def upload_employees (s : Store) (t : Table) : UploadOutcome × Store :=
  if ∀ col ∈ required_columns, col ∈ t.columns then
    match commitNewCompanies s (new_names_of s t) with
    | .error e => (.err500 ("Database error: " ++ e), s)
    | .ok s1 =>
        match buildEmployees
            (company_name_to_id (existing_companies s1 (company_names_of t))) t.rows with
        | .error e => (.err500 ("Database error: " ++ e), s1)
        | .ok emps =>
            match commitNewEmployees s1 emps with
            | .error e => (.err500 ("Database error: " ++ e), s1)
            | .ok s2 =>
                (.ok { message := "Data uploaded successfully."
                       companies_created := (new_names_of s t).length
                       employees_created := emps.length }, s2)
  else
    (.err400 "Missing required columns in file.", s)

/-- A database session action: reads and/or updates the store. -/
def SessionM (α : Type) : Type := Store → α × Store

/-- `session.query(Company).filter(Company.id == emp.company_id).first()`
(main.py:138).  In SQL, `id = NULL` matches no row, so a null `company_id`
yields `none`; `.first()` is the head of the result in table order. -/
def firstCompanyById (s : Store) (cid : Option Nat) : Option Company :=
  (s.companies.filter (fun c => some c.id = cid)).head?

/-- The query on main.py:138 as a session action (a pure read). -/
def queryCompanyById (cid : Option Nat) : SessionM (Option Company) :=
  fun s => (firstCompanyById s cid, s)

/-- `session.query(Employee).all()` (main.py:135) as a session action. -/
def queryAllEmployees : SessionM (List Employee) :=
  fun s => (s.employees, s)

/-- Pydantic validation of `EmployeeResponse(...)` (main.py:139-148).  The
model declares `company_name: str` — NOT `Optional[str]` (main.py:64) — so
passing the `None` produced by `company_name=company.company_name if company
else None` (main.py:147) raises a `ValidationError`. -/
def validate_employee_response (e : Employee) (cname : Option String) :
    Except String EmployeeResponse :=
  match cname with
  | some n =>
      .ok { employee_id := e.employee_id
            first_name := e.first_name
            last_name := e.last_name
            phone_number := e.phone_number
            salary := e.salary
            manager_id := e.manager_id
            department_id := e.department_id
            company_name := n }
  | none => .error "validation error: company_name: none is not an allowed value"

/-- The `for emp in employees` loop of `get_employees` (main.py:137-148):
per employee, one company lookup then one response construction; the first
validation failure propagates as an exception. -/
def get_employees_loop : List Employee → SessionM (Except String (List EmployeeResponse))
  | [] => fun s => (.ok [], s)
  | e :: rest => fun s =>
      let q := queryCompanyById e.company_id s
      match validate_employee_response e ((q.1).map (·.company_name)) with
      | .error msg => (.error msg, q.2)
      | .ok r =>
          let res := get_employees_loop rest q.2
          match res.1 with
          | .error msg => (.error msg, res.2)
          | .ok rs => (.ok (r :: rs), res.2)

/-- The listing handler `get_employees` (main.py:131-151).  An uncaught
exception (the `try` has only a `finally`) surfaces as a 500; the session is
closed either way. -/
def get_employees (s : Store) : Except String (List EmployeeResponse) × Store :=
  let q := queryAllEmployees s
  get_employees_loop q.1 q.2

/-! ### Basic lemmas about the embedded operations -/

theorem mem_drop_duplicates_loop {a : String} :
    ∀ (l seen : List String), a ∈ drop_duplicates_loop seen l ↔ a ∈ l ∧ a ∉ seen := by
  intro l
  induction l with
  | nil => intro seen; simp [drop_duplicates_loop]
  | cons x xs ih =>
      intro seen
      by_cases hx : x ∈ seen
      · simp only [drop_duplicates_loop, if_pos hx, ih, List.mem_cons]
        constructor
        · rintro ⟨h1, h2⟩; exact ⟨Or.inr h1, h2⟩
        · rintro ⟨h1 | h1, h2⟩
          · exact absurd (h1 ▸ hx) h2
          · exact ⟨h1, h2⟩
      · simp only [drop_duplicates_loop, if_neg hx, List.mem_cons, ih]
        constructor
        · rintro (rfl | ⟨h1, h2⟩)
          · exact ⟨Or.inl rfl, hx⟩
          · exact ⟨Or.inr h1, fun hs => h2 (Or.inr hs)⟩
        · rintro ⟨rfl | h1, h2⟩
          · exact Or.inl rfl
          · by_cases hax : a = x
            · exact Or.inl hax
            · exact Or.inr ⟨h1, fun hor => hor.elim hax h2⟩

theorem drop_duplicates_loop_nodup :
    ∀ (l seen : List String), (drop_duplicates_loop seen l).Nodup := by
  intro l
  induction l with
  | nil => intro seen; simp [drop_duplicates_loop]
  | cons x xs ih =>
      intro seen
      by_cases hx : x ∈ seen
      · simpa [drop_duplicates_loop, if_pos hx] using ih seen
      · simp only [drop_duplicates_loop, if_neg hx, List.nodup_cons]
        refine ⟨fun hmem => ?_, ih (x :: seen)⟩
        exact ((mem_drop_duplicates_loop xs (x :: seen)).mp hmem).2 (.head _)

theorem mem_drop_duplicates {a : String} {l : List String} :
    a ∈ drop_duplicates l ↔ a ∈ l := by
  simp [drop_duplicates, mem_drop_duplicates_loop]

theorem drop_duplicates_nodup (l : List String) : (drop_duplicates l).Nodup :=
  drop_duplicates_loop_nodup l []

theorem company_names_of_nodup (t : Table) : (company_names_of t).Nodup :=
  drop_duplicates_nodup _

theorem mem_company_names_of {t : Table} {r : Row} (h : r ∈ t.rows) :
    r.COMPANY_NAME ∈ company_names_of t :=
  mem_drop_duplicates.mpr (List.mem_map.mpr ⟨r, h, rfl⟩)

theorem assignCompanyIds_map_name :
    ∀ (names : List String) (k : Nat),
      (assignCompanyIds k names).map (·.company_name) = names := by
  intro names
  induction names with
  | nil => intro k; rfl
  | cons n rest ih => intro k; simp [assignCompanyIds, ih]

theorem assignCompanyIds_id_bounds :
    ∀ (names : List String) (k : Nat) (c : Company), c ∈ assignCompanyIds k names →
      k ≤ c.id ∧ c.id < k + names.length := by
  intro names
  induction names with
  | nil => intro k c h; cases h
  | cons n rest ih =>
      intro k c h
      rcases List.mem_cons.mp h with rfl | h'
      · simp
      · rcases ih (k + 1) c h' with ⟨h1, h2⟩
        exact ⟨Nat.le_of_succ_le h1, by simpa [Nat.add_comm, Nat.add_left_comm] using h2⟩

theorem assignCompanyIds_ids_nodup :
    ∀ (names : List String) (k : Nat),
      ((assignCompanyIds k names).map (·.id)).Nodup := by
  intro names
  induction names with
  | nil => intro k; simp [assignCompanyIds]
  | cons n rest ih =>
      intro k
      simp only [assignCompanyIds, List.map_cons, List.nodup_cons]
      refine ⟨fun hmem => ?_, ih (k + 1)⟩
      rcases List.mem_map.mp hmem with ⟨c, hc, hid⟩
      have := (assignCompanyIds_id_bounds rest (k + 1) c hc).1
      omega

theorem new_names_of_nodup (s : Store) (t : Table) : (new_names_of s t).Nodup :=
  (company_names_of_nodup t).filter _

theorem mem_of_mem_new_names {s : Store} {t : Table} {n : String}
    (h : n ∈ new_names_of s t) : n ∈ company_names_of t :=
  List.mem_of_mem_filter h

theorem new_names_not_in_store {s : Store} {t : Table} {n : String}
    (h : n ∈ new_names_of s t) : n ∉ s.companies.map (·.company_name) := by
  intro hmem
  rcases List.mem_map.mp hmem with ⟨c, hc, hname⟩
  have hn : n ∈ company_names_of t := mem_of_mem_new_names h
  have hcf : c ∈ existing_companies s (company_names_of t) :=
    List.mem_filter.mpr ⟨hc, by simpa [hname] using hn⟩
  have : n ∈ (existing_companies s (company_names_of t)).map (·.company_name) :=
    List.mem_map.mpr ⟨c, hcf, hname⟩
  have hfilter := List.of_mem_filter h
  simp only [decide_eq_true_eq] at hfilter
  exact hfilter this

theorem company_name_to_id_isSome {cs : List Company} {n : String}
    (h : ∃ c ∈ cs, c.company_name = n) : (company_name_to_id cs n).isSome := by
  rcases h with ⟨c, hc, hn⟩
  have hne : (cs.filter (fun c => c.company_name = n)).map (·.id) ≠ [] := by
    have : c ∈ cs.filter (fun c => c.company_name = n) :=
      List.mem_filter.mpr ⟨hc, by simp [hn]⟩
    exact List.ne_nil_of_mem (List.mem_map.mpr ⟨c, this, rfl⟩)
  rw [company_name_to_id, List.getLast?_eq_getLast_of_ne_nil hne]
  rfl

theorem company_name_to_id_spec {cs : List Company} {n : String} {i : Nat}
    (h : company_name_to_id cs n = some i) :
    ∃ c ∈ cs, c.company_name = n ∧ c.id = i := by
  have hmem : i ∈ ((cs.filter (fun c => c.company_name = n)).map (·.id)) := by
    rcases List.mem_getLast?_eq_getLast (by exact h) with ⟨hne, heq⟩
    exact heq ▸ List.getLast_mem hne
  rcases List.mem_map.mp hmem with ⟨c, hc, hid⟩
  have := List.mem_filter.mp hc
  exact ⟨c, this.1, by simpa using this.2, hid⟩

/-- In sequential execution the company commit of `upload_employees` never
raises: the staged names are distinct and all absent from the store. -/
theorem commitNewCompanies_in_upload (s : Store) (t : Table) :
    commitNewCompanies s (new_names_of s t) = .ok (storeAfterCompanyCommit s t) := by
  rw [commitNewCompanies,
      if_pos ⟨new_names_of_nodup s t, fun n hn => new_names_not_in_store hn⟩]
  rfl

/-- The name→id mapping of main.py:103 as the upload handler builds it (after
the company commit). -/
def lookup_of (s : Store) (t : Table) : String → Option Nat :=
  company_name_to_id (existing_companies (storeAfterCompanyCommit s t) (company_names_of t))

/-- Every distinct company name of the file resolves in the mapping built
after the company commit. -/
theorem lookup_of_isSome {s : Store} {t : Table} {n : String}
    (h : n ∈ company_names_of t) : (lookup_of s t n).isSome := by
  apply company_name_to_id_isSome
  by_cases hex : n ∈ (existing_companies s (company_names_of t)).map (·.company_name)
  · rcases List.mem_map.mp hex with ⟨c, hc, hn⟩
    have hcs : c ∈ s.companies := (List.mem_filter.mp hc).1
    refine ⟨c, List.mem_filter.mpr ⟨?_, ?_⟩, hn⟩
    · exact List.mem_append_left _ hcs
    · exact (List.mem_filter.mp hc).2
  · have hnew : n ∈ new_names_of s t := by
      rw [new_names_of]
      exact List.mem_filter.mpr ⟨h, by simpa using hex⟩
    have : n ∈ (assignCompanyIds s.nextCompanyId (new_names_of s t)).map (·.company_name) := by
      rw [assignCompanyIds_map_name]; exact hnew
    rcases List.mem_map.mp this with ⟨c, hc, hn⟩
    refine ⟨c, List.mem_filter.mpr ⟨?_, ?_⟩, hn⟩
    · exact List.mem_append_right _ hc
    · simp [hn, h]

theorem option_if_isSome {α : Type} (o : Option α) :
    (if o.isSome then o else none) = o := by
  cases o <;> rfl

theorem buildEmployees_ok_of {lk : String → Option Nat} :
    ∀ {rows : List Row}, (∀ r ∈ rows, (lk r.COMPANY_NAME).isSome) →
      ∃ emps, buildEmployees lk rows = .ok emps := by
  intro rows
  induction rows with
  | nil => intro _; exact ⟨[], rfl⟩
  | cons r rest ih =>
      intro h
      have hr := h r (.head _)
      rcases Option.isSome_iff_exists.mp hr with ⟨cid, hcid⟩
      rcases ih (fun r' hr' => h r' (List.mem_cons_of_mem _ hr')) with ⟨emps, hemps⟩
      refine ⟨{ employee_id := r.EMPLOYEE_ID, first_name := r.FIRST_NAME,
                last_name := r.LAST_NAME, phone_number := r.PHONE_NUMBER,
                salary := r.SALARY,
                manager_id := if r.MANAGER_ID.isSome then r.MANAGER_ID else none,
                department_id := if r.DEPARTMENT_ID.isSome then r.DEPARTMENT_ID else none,
                company_id := cid } :: emps, ?_⟩
      simp [buildEmployees, buildEmployee, hcid, hemps]

theorem buildEmployees_ok_spec {lk : String → Option Nat} :
    ∀ {rows : List Row} {emps : List NewEmployee}, buildEmployees lk rows = .ok emps →
      emps.map (·.employee_id) = rows.map (·.EMPLOYEE_ID) ∧
      emps.map (·.manager_id) = rows.map (·.MANAGER_ID) ∧
      emps.map (·.department_id) = rows.map (·.DEPARTMENT_ID) ∧
      emps.map (fun ne => some ne.company_id) = rows.map (fun r => lk r.COMPANY_NAME) := by
  intro rows
  induction rows with
  | nil =>
      intro emps h
      simp only [buildEmployees] at h
      cases h
      simp
  | cons r rest ih =>
      intro emps h
      simp only [buildEmployees] at h
      rcases hb : buildEmployee lk r with e | ne
      · rw [hb] at h; cases h
      · rw [hb] at h
        rcases hrest : buildEmployees lk rest with e | emps'
        · rw [hrest] at h; cases h
        · rw [hrest] at h
          cases h
          rcases ih hrest with ⟨h1, h2, h3, h4⟩
          rcases hlk : lk r.COMPANY_NAME with _ | cid
          · rw [buildEmployee, hlk] at hb; cases hb
          · rw [buildEmployee, hlk] at hb
            cases hb
            refine ⟨by simp [h1], ?_, ?_, by simp [h4, hlk]⟩
            · simp [h2, option_if_isSome]
            · simp [h3, option_if_isSome]

theorem buildEmployees_length {lk : String → Option Nat} {rows : List Row}
    {emps : List NewEmployee} (h : buildEmployees lk rows = .ok emps) :
    emps.length = rows.length := by
  have := (buildEmployees_ok_spec h).1
  have h1 := congrArg List.length this
  simpa using h1

theorem assignEmployeeIds_length :
    ∀ (emps : List NewEmployee) (k : Nat), (assignEmployeeIds k emps).length = emps.length := by
  intro emps
  induction emps with
  | nil => intro k; rfl
  | cons ne rest ih => intro k; simp [assignEmployeeIds, ih]

theorem assignEmployeeIds_map_employee_id :
    ∀ (emps : List NewEmployee) (k : Nat),
      (assignEmployeeIds k emps).map (·.employee_id) = emps.map (·.employee_id) := by
  intro emps
  induction emps with
  | nil => intro k; rfl
  | cons ne rest ih => intro k; simp [assignEmployeeIds, ih]

theorem assignEmployeeIds_map_manager_id :
    ∀ (emps : List NewEmployee) (k : Nat),
      (assignEmployeeIds k emps).map (·.manager_id) = emps.map (·.manager_id) := by
  intro emps
  induction emps with
  | nil => intro k; rfl
  | cons ne rest ih => intro k; simp [assignEmployeeIds, ih]

theorem assignEmployeeIds_map_department_id :
    ∀ (emps : List NewEmployee) (k : Nat),
      (assignEmployeeIds k emps).map (·.department_id) = emps.map (·.department_id) := by
  intro emps
  induction emps with
  | nil => intro k; rfl
  | cons ne rest ih => intro k; simp [assignEmployeeIds, ih]

theorem assignEmployeeIds_map_company_fun {β : Type} (f : Option Nat → β) :
    ∀ (emps : List NewEmployee) (k : Nat),
      (assignEmployeeIds k emps).map (fun e => f e.company_id) =
        emps.map (fun ne => f (some ne.company_id)) := by
  intro emps
  induction emps with
  | nil => intro k; rfl
  | cons ne rest ih => intro k; simp [assignEmployeeIds, ih]

theorem commitNewEmployees_ok_inv {s : Store} {emps : List NewEmployee} {s' : Store}
    (h : commitNewEmployees s emps = .ok s') :
    ((emps.map (·.employee_id)).Nodup ∧
      ∀ ne ∈ emps, ne.employee_id ∉ s.employees.map (·.employee_id)) ∧
    s' = { s with
           employees := s.employees ++ assignEmployeeIds s.nextEmployeeId emps,
           nextEmployeeId := s.nextEmployeeId + emps.length } := by
  rw [commitNewEmployees] at h
  split at h
  · rename_i hcond
    cases h
    exact ⟨hcond, rfl⟩
  · cases h

theorem commitNewEmployees_ok_of {s : Store} {emps : List NewEmployee}
    (h1 : (emps.map (·.employee_id)).Nodup)
    (h2 : ∀ ne ∈ emps, ne.employee_id ∉ s.employees.map (·.employee_id)) :
    commitNewEmployees s emps =
      .ok { s with
            employees := s.employees ++ assignEmployeeIds s.nextEmployeeId emps,
            nextEmployeeId := s.nextEmployeeId + emps.length } := by
  rw [commitNewEmployees, if_pos ⟨h1, h2⟩]

theorem commitNewEmployees_error_of {s : Store} {emps : List NewEmployee}
    (h : ¬ ((emps.map (·.employee_id)).Nodup ∧
      ∀ ne ∈ emps, ne.employee_id ∉ s.employees.map (·.employee_id))) :
    commitNewEmployees s emps = .error "UNIQUE constraint failed: employees.employee_id" := by
  rw [commitNewEmployees, if_neg h]

theorem upload_employees_eq_of_cols {s : Store} {t : Table}
    (hcols : ∀ col ∈ required_columns, col ∈ t.columns) :
    upload_employees s t =
      match buildEmployees (lookup_of s t) t.rows with
      | .error e => (.err500 ("Database error: " ++ e), storeAfterCompanyCommit s t)
      | .ok emps =>
          match commitNewEmployees (storeAfterCompanyCommit s t) emps with
          | .error e => (.err500 ("Database error: " ++ e), storeAfterCompanyCommit s t)
          | .ok s2 =>
              (.ok { message := "Data uploaded successfully."
                     companies_created := (new_names_of s t).length
                     employees_created := emps.length }, s2) := by
  rw [upload_employees, if_pos hcols, commitNewCompanies_in_upload]
  rfl

theorem upload_employees_eq_of_missing_col {s : Store} {t : Table}
    (hcols : ¬ ∀ col ∈ required_columns, col ∈ t.columns) :
    upload_employees s t = (.err400 "Missing required columns in file.", s) := by
  rw [upload_employees, if_neg hcols]

theorem upload_ok_inv {s : Store} {t : Table} {r : UploadResponse} {s' : Store}
    (h : upload_employees s t = (.ok r, s')) :
    (∀ col ∈ required_columns, col ∈ t.columns) ∧
    ∃ emps, buildEmployees (lookup_of s t) t.rows = .ok emps ∧
      commitNewEmployees (storeAfterCompanyCommit s t) emps = .ok s' ∧
      r = { message := "Data uploaded successfully."
            companies_created := (new_names_of s t).length
            employees_created := emps.length } := by
  by_cases hcols : ∀ col ∈ required_columns, col ∈ t.columns
  · rw [upload_employees_eq_of_cols hcols] at h
    refine ⟨hcols, ?_⟩
    rcases hb : buildEmployees (lookup_of s t) t.rows with e | emps
    · rw [hb] at h; simp at h
    · rw [hb] at h; simp only [] at h
      rcases hc : commitNewEmployees (storeAfterCompanyCommit s t) emps with e | s2
      · rw [hc] at h; simp at h
      · rw [hc] at h; simp only [] at h
        simp only [Prod.mk.injEq, UploadOutcome.ok.injEq] at h
        exact ⟨emps, rfl, h.2 ▸ hc, h.1.symm⟩
  · rw [upload_employees_eq_of_missing_col hcols] at h
    simp at h

theorem upload_500_inv {s : Store} {t : Table} {d : String} {s' : Store}
    (h : upload_employees s t = (.err500 d, s')) :
    (∀ col ∈ required_columns, col ∈ t.columns) ∧
    s' = storeAfterCompanyCommit s t ∧
    ∃ e, d = "Database error: " ++ e := by
  by_cases hcols : ∀ col ∈ required_columns, col ∈ t.columns
  · rw [upload_employees_eq_of_cols hcols] at h
    refine ⟨hcols, ?_⟩
    rcases hb : buildEmployees (lookup_of s t) t.rows with e | emps
    · rw [hb] at h; simp only [] at h
      simp only [Prod.mk.injEq, UploadOutcome.err500.injEq] at h
      exact ⟨h.2.symm, e, h.1.symm⟩
    · rw [hb] at h; simp only [] at h
      rcases hc : commitNewEmployees (storeAfterCompanyCommit s t) emps with e | s2
      · rw [hc] at h; simp only [] at h
        simp only [Prod.mk.injEq, UploadOutcome.err500.injEq] at h
        exact ⟨h.2.symm, e, h.1.symm⟩
      · rw [hc] at h; simp at h
  · rw [upload_employees_eq_of_missing_col hcols] at h
    simp at h

theorem get_employees_loop_state :
    ∀ (l : List Employee) (s : Store), (get_employees_loop l s).2 = s := by
  intro l
  induction l with
  | nil => intro s; rfl
  | cons e rest ih =>
      intro s
      simp only [get_employees_loop, queryCompanyById]
      rcases hv : validate_employee_response e
          ((firstCompanyById s e.company_id).map (·.company_name)) with m | r
      · simp [hv]
      · simp only [hv]
        rcases hres : (get_employees_loop rest s).1 with m | rs
        · simpa using ih s
        · simpa using ih s

/-- The denormalized record `get_employees` produces for one employee when
its company lookup succeeds (proof device for stating the loop lemma). -/
def respOf (s : Store) (e : Employee) : EmployeeResponse :=
  { employee_id := e.employee_id
    first_name := e.first_name
    last_name := e.last_name
    phone_number := e.phone_number
    salary := e.salary
    manager_id := e.manager_id
    department_id := e.department_id
    company_name := ((firstCompanyById s e.company_id).map (·.company_name)).getD "" }

theorem get_employees_loop_ok :
    ∀ {l : List Employee} {s : Store},
      (∀ e ∈ l, (firstCompanyById s e.company_id).isSome) →
      (get_employees_loop l s).1 = .ok (l.map (respOf s)) := by
  intro l
  induction l with
  | nil => intro s _; rfl
  | cons e rest ih =>
      intro s h
      have he := h e (.head _)
      rcases Option.isSome_iff_exists.mp he with ⟨c, hc⟩
      have hrest := @ih s (fun e' he' => h e' (List.mem_cons_of_mem _ he'))
      simp only [get_employees_loop, queryCompanyById, hc, validate_employee_response,
        Option.map_some]
      rcases hres : get_employees_loop rest s with ⟨res1, res2⟩
      rw [hres] at hrest
      simp only [] at hrest
      subst hrest
      simp [respOf, hc, List.map_cons]

theorem mem_of_head?_eq_some {α : Type} {l : List α} {a : α} (h : l.head? = some a) :
    a ∈ l := by
  cases l with
  | nil => cases h
  | cons x xs => cases h; exact .head _

theorem firstCompanyById_spec {s : Store} {cid : Option Nat} {c : Company}
    (h : firstCompanyById s cid = some c) :
    c ∈ s.companies ∧ some c.id = cid := by
  have hmem := mem_of_head?_eq_some h
  have := List.mem_filter.mp hmem
  exact ⟨this.1, by simpa using this.2⟩

theorem firstCompanyById_isSome_of_mem {s : Store} {c : Company}
    (hc : c ∈ s.companies) : (firstCompanyById s (some c.id)).isSome := by
  have : c ∈ s.companies.filter (fun x => some x.id = some c.id) :=
    List.mem_filter.mpr ⟨hc, by simp⟩
  rw [firstCompanyById]
  cases hf : s.companies.filter (fun x => some x.id = some c.id) with
  | nil => rw [hf] at this; cases this
  | cons x xs => rfl

/-- Well-formedness of a reachable store: distinct company primary keys, all
below the id counter, and every employee's company reference resolving. -/
def Store.WF (s : Store) : Prop :=
  (s.companies.map (·.id)).Nodup ∧
  (∀ c ∈ s.companies, c.id < s.nextCompanyId) ∧
  (∀ e ∈ s.employees, (firstCompanyById s e.company_id).isSome)

theorem assignCompanyIds_length :
    ∀ (names : List String) (k : Nat), (assignCompanyIds k names).length = names.length := by
  intro names
  induction names with
  | nil => intro k; rfl
  | cons n rest ih => intro k; simp [assignCompanyIds, ih]

theorem existing_companies_of_fresh {s : Store} {t : Table}
    (hnames : ∀ n ∈ company_names_of t, n ∉ s.companies.map (·.company_name)) :
    existing_companies s (company_names_of t) = [] := by
  rw [existing_companies, List.filter_eq_nil_iff]
  intro c hc
  simp only [decide_eq_true_eq]
  intro hmem
  exact hnames c.company_name hmem (List.mem_map.mpr ⟨c, hc, rfl⟩)

theorem new_names_eq_of_fresh {s : Store} {t : Table}
    (hnames : ∀ n ∈ company_names_of t, n ∉ s.companies.map (·.company_name)) :
    new_names_of s t = company_names_of t := by
  rw [new_names_of, existing_companies_of_fresh hnames]
  rw [List.filter_eq_self]
  intro n _
  simp

theorem storeAfterCompanyCommit_of_no_new {s : Store} {t : Table}
    (h : new_names_of s t = []) : storeAfterCompanyCommit s t = s := by
  cases s
  simp [storeAfterCompanyCommit, h, assignCompanyIds]

/-- Names of companies in a store, in table order. -/
def store_company_names (s : Store) : List String :=
  s.companies.map (·.company_name)

/-- Single-step preservation of company-name uniqueness by an upload. -/
theorem upload_step_preserves_name_unique {s : Store} {t : Table}
    (h : (store_company_names s).Nodup) :
    (store_company_names (upload_employees s t).2).Nodup := by
  by_cases hcols : ∀ col ∈ required_columns, col ∈ t.columns
  · have hafter : (store_company_names (storeAfterCompanyCommit s t)).Nodup := by
      rw [store_company_names, storeAfterCompanyCommit]
      simp only [List.map_append, assignCompanyIds_map_name]
      refine List.Nodup.append h (new_names_of_nodup s t) ?_
      intro a ha hnew
      exact new_names_not_in_store hnew ha
    rw [upload_employees_eq_of_cols hcols]
    rcases hb : buildEmployees (lookup_of s t) t.rows with e | emps
    · exact hafter
    · simp only []
      rcases hc : commitNewEmployees (storeAfterCompanyCommit s t) emps with e | s2
      · exact hafter
      · rcases commitNewEmployees_ok_inv hc with ⟨_, hs2⟩
        subst hs2
        exact hafter
  · rw [upload_employees_eq_of_missing_col hcols]
    exact h

/-! ### Concrete fixtures used by witnesses and counterexamples -/

/-- The empty store, as created on first startup (main.py:38). -/
def emptyStore : Store :=
  { companies := [], employees := [], nextCompanyId := 1, nextEmployeeId := 1 }

/-- A well-formed single-row file: employee 1 at company "Acme", null
MANAGER_ID, DEPARTMENT_ID 5. -/
def sampleRow : Row :=
  { EMPLOYEE_ID := 1, FIRST_NAME := "Ann", LAST_NAME := "Lee",
    PHONE_NUMBER := "555", COMPANY_NAME := "Acme", SALARY := 100,
    MANAGER_ID := none, DEPARTMENT_ID := some 5 }

def sampleTable : Table := { columns := required_columns, rows := [sampleRow] }

/-- The store after ingesting `sampleTable` into the empty store. -/
def storeAfterFirstUpload : Store := (upload_employees emptyStore sampleTable).2

/-- A file introducing the new company "Beta" but reusing employee number 1. -/
def betaRow : Row :=
  { EMPLOYEE_ID := 1, FIRST_NAME := "Bo", LAST_NAME := "Kim",
    PHONE_NUMBER := "556", COMPANY_NAME := "Beta", SALARY := 50,
    MANAGER_ID := none, DEPARTMENT_ID := none }

def betaTable : Table := { columns := required_columns, rows := [betaRow] }

/-- A store holding one employee whose `company_id` (42) resolves to no
company row. -/
def danglingStore : Store :=
  { companies := [],
    employees := [{ id := 1, employee_id := 7, first_name := "Ann", last_name := "Lee",
                    phone_number := "555", salary := 0, manager_id := none,
                    department_id := none, company_id := some 42 }],
    nextCompanyId := 1, nextEmployeeId := 2 }

/-! ### The claims -/

/-- C8: for every uploaded file that parses but whose table is missing any
one of the eight required column names (exact, case-sensitive), the upload
request is rejected with a 400 response ("Missing required columns in
file.") and the store is returned unchanged — zero rows persisted. -/
theorem upload_missing_column_rejected_store_unchanged (s : Store) (t : Table)
    (h : ∃ col ∈ required_columns, col ∉ t.columns) :
    upload_employees s t = (.err400 "Missing required columns in file.", s) := by
  apply upload_employees_eq_of_missing_col
  intro hall
  rcases h with ⟨col, hc1, hc2⟩
  exact hc2 (hall col hc1)

theorem upload_missing_column_rejected_store_unchanged_witness :
    (∃ col ∈ required_columns, col ∉ (Table.mk ["EMPLOYEE_ID"] [sampleRow]).columns) ∧
    upload_employees emptyStore (Table.mk ["EMPLOYEE_ID"] [sampleRow]) =
      (.err400 "Missing required columns in file.", emptyStore) :=
  ⟨by decide,
   upload_missing_column_rejected_store_unchanged emptyStore
     (Table.mk ["EMPLOYEE_ID"] [sampleRow]) (by decide)⟩

/-- C10: the listing handler is read-only — for every store state, running
`get_employees` returns the store exactly as it was: it only issues queries,
never inserts, updates, deletes, or commits. -/
theorem get_employees_read_only (s : Store) : (get_employees s).2 = s :=
  get_employees_loop_state s.employees s

/-- C4 (code bug): the claim — and main.py:147, which deliberately passes
`None` as the company name of an employee whose reference does not resolve —
expect a null `company_name` in the response; but `EmployeeResponse` declares
`company_name: str` (main.py:64), so pydantic rejects `None` and the request
raises instead of returning.  Evaluation of the handler at a store with one
dangling employee: -/
theorem get_employees_dangling_company_raises_validation_error :
    (get_employees danglingStore).1 =
      .error "validation error: company_name: none is not an allowed value" := by
  rfl

/-- C5: for every upload whose table passes the column check, every row's
COMPANY_NAME resolves in the name→id mapping built after the company insert
and re-query (main.py:103), so the per-row `KeyError` path of main.py:116 is
unreachable: `buildEmployees` always succeeds. -/
theorem company_resolution_lookup_total (s : Store) (t : Table)
    (_hcols : ∀ col ∈ required_columns, col ∈ t.columns) :
    (∀ row ∈ t.rows, (lookup_of s t row.COMPANY_NAME).isSome) ∧
    ∃ emps, buildEmployees (lookup_of s t) t.rows = .ok emps :=
  ⟨fun _ hrow => lookup_of_isSome (mem_company_names_of hrow),
   buildEmployees_ok_of (fun _ hr => lookup_of_isSome (mem_company_names_of hr))⟩

theorem company_resolution_lookup_total_witness :
    (∀ col ∈ required_columns, col ∈ sampleTable.columns) ∧
    (∀ row ∈ sampleTable.rows, (lookup_of emptyStore sampleTable row.COMPANY_NAME).isSome) :=
  ⟨by decide,
   (company_resolution_lookup_total emptyStore sampleTable (by decide)).1⟩

/-- C9: for every successfully ingested row, the persisted `manager_id` and
`department_id` equal the row's cells: `none` (a null/empty cell, main.py:114-115)
is stored as absent — never coerced to zero — and a non-null cell is stored
as its coerced integer value. -/
theorem upload_manager_department_null_preserved (s : Store) (t : Table)
    (r : UploadResponse) (s' : Store) (h : upload_employees s t = (.ok r, s')) :
    ((s'.employees.drop s.employees.length).map (·.manager_id) =
      t.rows.map (·.MANAGER_ID)) ∧
    ((s'.employees.drop s.employees.length).map (·.department_id) =
      t.rows.map (·.DEPARTMENT_ID)) := by
  rcases upload_ok_inv h with ⟨hcols, emps, hb, hc, hr⟩
  rcases commitNewEmployees_ok_inv hc with ⟨hcond, hs'⟩
  rcases buildEmployees_ok_spec hb with ⟨h1, h2, h3, h4⟩
  subst hs'
  constructor
  · show ((s.employees ++ assignEmployeeIds s.nextEmployeeId emps).drop
        s.employees.length).map (·.manager_id) = t.rows.map (·.MANAGER_ID)
    rw [List.drop_left, assignEmployeeIds_map_manager_id]
    exact h2
  · show ((s.employees ++ assignEmployeeIds s.nextEmployeeId emps).drop
        s.employees.length).map (·.department_id) = t.rows.map (·.DEPARTMENT_ID)
    rw [List.drop_left, assignEmployeeIds_map_department_id]
    exact h3

theorem upload_manager_department_null_preserved_witness :
    upload_employees emptyStore sampleTable =
      (.ok { message := "Data uploaded successfully."
             companies_created := 1
             employees_created := 1 }, storeAfterFirstUpload) ∧
    ((storeAfterFirstUpload.employees.drop emptyStore.employees.length).map (·.manager_id) =
      sampleTable.rows.map (·.MANAGER_ID)) ∧
    ((storeAfterFirstUpload.employees.drop emptyStore.employees.length).map (·.department_id) =
      sampleTable.rows.map (·.DEPARTMENT_ID)) :=
  ⟨by rfl,
   upload_manager_department_null_preserved emptyStore sampleTable
     { message := "Data uploaded successfully."
       companies_created := 1
       employees_created := 1 } storeAfterFirstUpload (by rfl)⟩

/-- C3: company-name uniqueness is an invariant under sequential execution:
starting from a store with pairwise-distinct company names, any sequence of
uploads leaves the names pairwise distinct — re-ingesting a known name never
creates a second row for it (the handler inserts only names missing from the
store, main.py:95-98). -/
theorem upload_sequence_preserves_company_name_uniqueness
    (ts : List Table) (s : Store) (h : (store_company_names s).Nodup) :
    (store_company_names
      (ts.foldl (fun st t => (upload_employees st t).2) s)).Nodup := by
  induction ts generalizing s with
  | nil => exact h
  | cons t rest ih => exact ih _ (upload_step_preserves_name_unique h)

theorem upload_sequence_preserves_company_name_uniqueness_witness :
    (store_company_names emptyStore).Nodup ∧
    (store_company_names
      ([sampleTable, sampleTable, betaTable].foldl
        (fun st t => (upload_employees st t).2) emptyStore)).Nodup :=
  ⟨by decide,
   upload_sequence_preserves_company_name_uniqueness
     [sampleTable, sampleTable, betaTable] emptyStore (by decide)⟩

/-- C1 is FALSE as stated: an exception during the employee phase does not
restore the pre-request store.  Concretely, uploading `betaTable` (new
company "Beta", duplicate employee number 1) into the store left by the
first upload raises at the employee commit and reports a 500, yet the new
Company row "Beta" stays committed: the store has 2 companies afterwards,
not 1. -/
theorem upload_exception_leaves_new_companies_cex :
    (upload_employees storeAfterFirstUpload betaTable).1 =
      .err500 "Database error: UNIQUE constraint failed: employees.employee_id" ∧
    (upload_employees storeAfterFirstUpload betaTable).2 ≠ storeAfterFirstUpload ∧
    ((upload_employees storeAfterFirstUpload betaTable).2).companies.length = 2 ∧
    storeAfterFirstUpload.companies.length = 1 := by
  refine ⟨by rfl, ?_, by rfl, by rfl⟩
  intro h
  have h2 : (2 : Nat) = 1 := congrArg (fun st => st.companies.length) h
  exact absurd h2 (by decide)

/-- C1 amended: on any exception during the persistence phase the handler
rolls back the ACTIVE transaction and reports a 500 whose detail is
"Database error: " plus the exception text; the staged Employee rows are all
discarded (employees unchanged), but the Company rows committed by the
earlier commit (main.py:99) remain in the store, so the store is NOT
necessarily restored to its pre-request state. -/
theorem upload_exception_rolls_back_active_transaction_only
    (s : Store) (t : Table) (d : String) (s' : Store)
    (h : upload_employees s t = (.err500 d, s')) :
    s'.employees = s.employees ∧
    s'.companies = s.companies ++ assignCompanyIds s.nextCompanyId (new_names_of s t) ∧
    ∃ e, d = "Database error: " ++ e := by
  rcases upload_500_inv h with ⟨hcols, hs', he⟩
  subst hs'
  exact ⟨rfl, rfl, he⟩

theorem upload_exception_rolls_back_active_transaction_only_witness :
    upload_employees storeAfterFirstUpload betaTable =
      (.err500 "Database error: UNIQUE constraint failed: employees.employee_id",
       (upload_employees storeAfterFirstUpload betaTable).2) ∧
    ((upload_employees storeAfterFirstUpload betaTable).2).employees =
      storeAfterFirstUpload.employees ∧
    ((upload_employees storeAfterFirstUpload betaTable).2).companies =
      storeAfterFirstUpload.companies ++
        assignCompanyIds storeAfterFirstUpload.nextCompanyId
          (new_names_of storeAfterFirstUpload betaTable) ∧
    ∃ e, "Database error: UNIQUE constraint failed: employees.employee_id" =
      "Database error: " ++ e :=
  ⟨by rfl,
   upload_exception_rolls_back_active_transaction_only storeAfterFirstUpload betaTable
     "Database error: UNIQUE constraint failed: employees.employee_id"
     ((upload_employees storeAfterFirstUpload betaTable).2) (by rfl)⟩

/-- C6: uploading a well-formed file whose company names and employee
numbers are all new to the store (employee numbers also pairwise distinct)
succeeds with `companies_created` = the number N of distinct company names
and `employees_created` = the number M of rows, adding exactly N company
rows and M employee rows. -/
theorem upload_fresh_file_counts (s : Store) (t : Table)
    (hcols : ∀ col ∈ required_columns, col ∈ t.columns)
    (hnames : ∀ n ∈ company_names_of t, n ∉ s.companies.map (·.company_name))
    (hids : (t.rows.map (·.EMPLOYEE_ID)).Nodup)
    (hfresh : ∀ row ∈ t.rows, row.EMPLOYEE_ID ∉ s.employees.map (·.employee_id)) :
    ∃ s', upload_employees s t =
        (.ok { message := "Data uploaded successfully."
               companies_created := (company_names_of t).length
               employees_created := t.rows.length }, s') ∧
      s'.companies.length = s.companies.length + (company_names_of t).length ∧
      s'.employees.length = s.employees.length + t.rows.length := by
  obtain ⟨emps, hb⟩ := @buildEmployees_ok_of (lookup_of s t) t.rows
    (fun row hr => lookup_of_isSome (mem_company_names_of hr))
  have hspec := buildEmployees_ok_spec hb
  have hnodup : (emps.map (·.employee_id)).Nodup := by
    rw [hspec.1]; exact hids
  have hfresh2 : ∀ ne ∈ emps,
      ne.employee_id ∉ (storeAfterCompanyCommit s t).employees.map (·.employee_id) := by
    intro ne hne
    have hmem : ne.employee_id ∈ emps.map (·.employee_id) :=
      List.mem_map.mpr ⟨ne, hne, rfl⟩
    rw [hspec.1] at hmem
    rcases List.mem_map.mp hmem with ⟨row, hrow, hid⟩
    show ne.employee_id ∉ s.employees.map (·.employee_id)
    exact hid ▸ hfresh row hrow
  have hcommit := commitNewEmployees_ok_of hnodup hfresh2
  refine ⟨{ storeAfterCompanyCommit s t with
            employees := (storeAfterCompanyCommit s t).employees ++
              assignEmployeeIds (storeAfterCompanyCommit s t).nextEmployeeId emps,
            nextEmployeeId := (storeAfterCompanyCommit s t).nextEmployeeId + emps.length },
          ?_, ?_, ?_⟩
  · rw [upload_employees_eq_of_cols hcols, hb]
    simp only []
    rw [hcommit]
    simp only []
    rw [new_names_eq_of_fresh hnames, buildEmployees_length hb]
  · show ((storeAfterCompanyCommit s t).companies).length =
      s.companies.length + (company_names_of t).length
    show (s.companies ++ assignCompanyIds s.nextCompanyId (new_names_of s t)).length =
      s.companies.length + (company_names_of t).length
    rw [List.length_append, assignCompanyIds_length, new_names_eq_of_fresh hnames]
  · show (s.employees ++ assignEmployeeIds s.nextEmployeeId emps).length =
      s.employees.length + t.rows.length
    rw [List.length_append, assignEmployeeIds_length, buildEmployees_length hb]

theorem upload_fresh_file_counts_witness :
    ((∀ col ∈ required_columns, col ∈ sampleTable.columns) ∧
     (∀ n ∈ company_names_of sampleTable,
        n ∉ emptyStore.companies.map (·.company_name)) ∧
     (sampleTable.rows.map (·.EMPLOYEE_ID)).Nodup ∧
     (∀ row ∈ sampleTable.rows,
        row.EMPLOYEE_ID ∉ emptyStore.employees.map (·.employee_id))) ∧
    ∃ s', upload_employees emptyStore sampleTable =
        (.ok { message := "Data uploaded successfully."
               companies_created := (company_names_of sampleTable).length
               employees_created := sampleTable.rows.length }, s') ∧
      s'.companies.length = emptyStore.companies.length +
        (company_names_of sampleTable).length ∧
      s'.employees.length = emptyStore.employees.length + sampleTable.rows.length :=
  ⟨⟨by decide, by decide, by decide, by decide⟩,
   upload_fresh_file_counts emptyStore sampleTable
     (by decide) (by decide) (by decide) (by decide)⟩

/-- C2 is FALSE as stated: re-uploading the same file does NOT succeed.
`employees.employee_id` carries a `unique` constraint (main.py:28), so the
second ingestion of `sampleTable` raises at the employee commit: the request
reports a 500 and creates no rows at all (the store is unchanged), instead
of returning `companies_created == 0` with M new employee rows. -/
theorem reupload_same_file_fails_cex :
    (upload_employees emptyStore sampleTable).1 =
      .ok { message := "Data uploaded successfully."
            companies_created := 1
            employees_created := 1 } ∧
    (upload_employees storeAfterFirstUpload sampleTable).1 =
      .err500 "Database error: UNIQUE constraint failed: employees.employee_id" ∧
    (upload_employees storeAfterFirstUpload sampleTable).2 = storeAfterFirstUpload :=
  ⟨by rfl, by rfl, by rfl⟩

/-- C2 amended: re-uploading a file that was just ingested successfully (and
has at least one row) violates the unique constraint on the employee number:
the second request reports a 500 with the constraint text and leaves the
store exactly as it was — no new Employee rows and no new Company rows. -/
theorem reupload_same_file_hits_unique_employee_id
    (s : Store) (t : Table) (r : UploadResponse) (s₁ : Store)
    (h : upload_employees s t = (.ok r, s₁)) (hne : t.rows ≠ []) :
    (upload_employees s₁ t).1 =
      .err500 "Database error: UNIQUE constraint failed: employees.employee_id" ∧
    (upload_employees s₁ t).2 = s₁ := by
  rcases upload_ok_inv h with ⟨hcols, emps, hb, hc, hr⟩
  rcases commitNewEmployees_ok_inv hc with ⟨⟨hnodup1, hfr1⟩, hs₁⟩
  have hcomp : s₁.companies = (storeAfterCompanyCommit s t).companies := by
    rw [hs₁]
  have hempl : s₁.employees = s.employees ++ assignEmployeeIds s.nextEmployeeId emps := by
    rw [hs₁]
    rfl
  have hexist : existing_companies s₁ (company_names_of t) =
      existing_companies (storeAfterCompanyCommit s t) (company_names_of t) := by
    rw [existing_companies, existing_companies, hcomp]
  have hex : ∀ n ∈ company_names_of t,
      n ∈ (existing_companies s₁ (company_names_of t)).map (·.company_name) := by
    intro n hn
    have h5 : (lookup_of s t n).isSome := lookup_of_isSome hn
    rcases Option.isSome_iff_exists.mp h5 with ⟨i, hi⟩
    rcases company_name_to_id_spec hi with ⟨c, hcmem, hcname, hcid⟩
    rw [hexist]
    exact List.mem_map.mpr ⟨c, hcmem, hcname⟩
  have hnew : new_names_of s₁ t = [] := by
    rw [new_names_of, List.filter_eq_nil_iff]
    intro n hn
    simpa using hex n hn
  have hafter : storeAfterCompanyCommit s₁ t = s₁ :=
    storeAfterCompanyCommit_of_no_new hnew
  obtain ⟨emps₂, hb₂⟩ := @buildEmployees_ok_of (lookup_of s₁ t) t.rows
    (fun row hrow => lookup_of_isSome (mem_company_names_of hrow))
  obtain ⟨r0, hr0⟩ := List.exists_mem_of_ne_nil t.rows hne
  have hid2 : r0.EMPLOYEE_ID ∈ emps₂.map (·.employee_id) := by
    rw [(buildEmployees_ok_spec hb₂).1]
    exact List.mem_map.mpr ⟨r0, hr0, rfl⟩
  rcases List.mem_map.mp hid2 with ⟨ne₂, hne₂, hneid⟩
  have hidS : r0.EMPLOYEE_ID ∈ s₁.employees.map (·.employee_id) := by
    rw [hempl, List.map_append, assignEmployeeIds_map_employee_id,
        (buildEmployees_ok_spec hb).1]
    exact List.mem_append_right _ (List.mem_map.mpr ⟨r0, hr0, rfl⟩)
  have hcfail : ¬ ((emps₂.map (·.employee_id)).Nodup ∧
      ∀ ne ∈ emps₂, ne.employee_id ∉ s₁.employees.map (·.employee_id)) := by
    rintro ⟨_, hall⟩
    exact hall ne₂ hne₂ (hneid ▸ hidS)
  have hcommit₂ : commitNewEmployees s₁ emps₂ =
      .error "UNIQUE constraint failed: employees.employee_id" :=
    commitNewEmployees_error_of hcfail
  constructor
  · rw [upload_employees_eq_of_cols hcols, hb₂]
    simp only []
    rw [hafter, hcommit₂]
    simp only []
    rfl
  · rw [upload_employees_eq_of_cols hcols, hb₂]
    simp only []
    rw [hafter, hcommit₂]

theorem reupload_same_file_hits_unique_employee_id_witness :
    (upload_employees emptyStore sampleTable =
      (.ok { message := "Data uploaded successfully."
             companies_created := 1
             employees_created := 1 }, storeAfterFirstUpload) ∧
     sampleTable.rows ≠ []) ∧
    ((upload_employees storeAfterFirstUpload sampleTable).1 =
      .err500 "Database error: UNIQUE constraint failed: employees.employee_id" ∧
     (upload_employees storeAfterFirstUpload sampleTable).2 = storeAfterFirstUpload) :=
  ⟨⟨by rfl, by decide⟩,
   reupload_same_file_hits_unique_employee_id emptyStore sampleTable
     { message := "Data uploaded successfully."
       companies_created := 1
       employees_created := 1 } storeAfterFirstUpload (by rfl) (by decide)⟩

theorem head_filter_append_isSome {α : Type} {p : α → Bool} {l₁ l₂ : List α}
    (h : ((l₁.filter p).head?).isSome) :
    (((l₁ ++ l₂).filter p).head?).isSome := by
  rw [List.filter_append]
  cases hf : l₁.filter p with
  | nil => rw [hf] at h; cases h
  | cons x xs => rfl

theorem mem_assignEmployeeIds_company :
    ∀ {emps : List NewEmployee} {k : Nat} {e : Employee}, e ∈ assignEmployeeIds k emps →
      ∃ ne ∈ emps, e.company_id = some ne.company_id := by
  intro emps
  induction emps with
  | nil => intro k e h; cases h
  | cons ne rest ih =>
      intro k e h
      rcases List.mem_cons.mp h with rfl | h'
      · exact ⟨ne, .head _, rfl⟩
      · rcases ih h' with ⟨ne', hne', heq⟩
        exact ⟨ne', List.mem_cons_of_mem _ hne', heq⟩

theorem storeAfter_companies_ids_nodup {s : Store} {t : Table} (hWF : s.WF) :
    (((storeAfterCompanyCommit s t).companies).map (·.id)).Nodup := by
  show ((s.companies ++ assignCompanyIds s.nextCompanyId (new_names_of s t)).map (·.id)).Nodup
  rw [List.map_append]
  refine List.Nodup.append hWF.1 (assignCompanyIds_ids_nodup _ _) ?_
  intro a ha hnew
  rcases List.mem_map.mp ha with ⟨c, hc, hcid⟩
  rcases List.mem_map.mp hnew with ⟨c', hc', hcid'⟩
  have h1 := hWF.2.1 c hc
  have h2 := (assignCompanyIds_id_bounds _ _ c' hc').1
  omega

theorem emps_names_round_trip {s' : Store} {lk : String → Option Nat} :
    ∀ {emps : List NewEmployee} {rows : List Row} {k : Nat},
      emps.map (fun ne => some ne.company_id) =
        rows.map (fun row => lk row.COMPANY_NAME) →
      (∀ row ∈ rows, ∀ i, lk row.COMPANY_NAME = some i →
        ((firstCompanyById s' (some i)).map (·.company_name)).getD "" = row.COMPANY_NAME) →
      (assignEmployeeIds k emps).map
          (fun e => ((firstCompanyById s' e.company_id).map (·.company_name)).getD "") =
        rows.map (·.COMPANY_NAME) := by
  intro emps
  induction emps with
  | nil =>
      intro rows k hmapeq hpt
      cases rows with
      | nil => rfl
      | cons row rrest => simp at hmapeq
  | cons ne rest ih =>
      intro rows k hmapeq hpt
      cases rows with
      | nil => simp at hmapeq
      | cons row rrest =>
          simp only [List.map_cons, List.cons.injEq] at hmapeq
          obtain ⟨h1, h2⟩ := hmapeq
          simp only [assignEmployeeIds, List.map_cons]
          congr 1
          · exact hpt row (.head _) ne.company_id h1.symm
          · exact ih h2 (fun row' hr i hi => hpt row' (List.mem_cons_of_mem _ hr) i hi)

/-- C7: round trip — after a successful ingestion into a well-formed store,
`GET /employees/` succeeds, returns one entry per employee (the M ingested
rows appended after the pre-existing ones), and each ingested row's entry
carries a `company_name` equal to that row's COMPANY_NAME cell. -/
theorem get_after_upload_round_trip (s : Store) (t : Table) (r : UploadResponse)
    (s' : Store) (hWF : s.WF) (h : upload_employees s t = (.ok r, s')) :
    ∃ l, (get_employees s').1 = .ok l ∧
      l.length = s.employees.length + t.rows.length ∧
      (l.drop s.employees.length).map (·.company_name) =
        t.rows.map (·.COMPANY_NAME) := by
  rcases upload_ok_inv h with ⟨hcols, emps, hb, hc, hr⟩
  rcases commitNewEmployees_ok_inv hc with ⟨⟨hnodup, hfr⟩, hs'⟩
  have hspec := buildEmployees_ok_spec hb
  have hscomp : s'.companies = (storeAfterCompanyCommit s t).companies := by rw [hs']
  have hsemp : s'.employees = s.employees ++ assignEmployeeIds s.nextEmployeeId emps := by
    rw [hs']; rfl
  have hidnodup : (s'.companies.map (·.id)).Nodup := by
    rw [hscomp]; exact storeAfter_companies_ids_nodup hWF
  have hres : ∀ e ∈ s'.employees, (firstCompanyById s' e.company_id).isSome := by
    intro e he
    rw [hsemp] at he
    rcases List.mem_append.mp he with hold | hnew
    · have h0 : (firstCompanyById s e.company_id).isSome := hWF.2.2 e hold
      rw [firstCompanyById] at h0 ⊢
      rw [hscomp]
      show ((((s.companies ++ assignCompanyIds s.nextCompanyId (new_names_of s t))).filter
          (fun c => some c.id = e.company_id)).head?).isSome
      exact head_filter_append_isSome h0
    · rcases mem_assignEmployeeIds_company hnew with ⟨ne, hne, hcidne⟩
      have hmem : some ne.company_id ∈ emps.map (fun x => some x.company_id) :=
        List.mem_map.mpr ⟨ne, hne, rfl⟩
      rw [hspec.2.2.2] at hmem
      rcases List.mem_map.mp hmem with ⟨row, hrow, hlk⟩
      rcases company_name_to_id_spec hlk with ⟨c, hcmem, hcname, hcid⟩
      have hcs : c ∈ s'.companies := by
        rw [hscomp]
        exact List.mem_of_mem_filter hcmem
      have hsome := firstCompanyById_isSome_of_mem hcs
      rw [hcidne, ← hcid]
      exact hsome
  have hget : (get_employees s').1 = .ok (s'.employees.map (respOf s')) :=
    get_employees_loop_ok hres
  refine ⟨s'.employees.map (respOf s'), hget, ?_, ?_⟩
  · rw [List.length_map, hsemp, List.length_append, assignEmployeeIds_length,
        buildEmployees_length hb]
  · have hpt : ∀ row ∈ t.rows, ∀ i, lookup_of s t row.COMPANY_NAME = some i →
        ((firstCompanyById s' (some i)).map (·.company_name)).getD "" =
          row.COMPANY_NAME := by
      intro row hrow i hi
      rcases company_name_to_id_spec hi with ⟨c, hcmem, hcname, hcid⟩
      have hcs : c ∈ s'.companies := by
        rw [hscomp]
        exact List.mem_of_mem_filter hcmem
      have hsome : (firstCompanyById s' (some i)).isSome := by
        rw [← hcid]
        exact firstCompanyById_isSome_of_mem hcs
      rcases Option.isSome_iff_exists.mp hsome with ⟨c₀, hc₀⟩
      rcases firstCompanyById_spec hc₀ with ⟨hc₀s, hc₀id⟩
      have hideq : c₀.id = c.id := by
        have : c₀.id = i := Option.some.inj hc₀id
        rw [this, hcid]
      have hceq : c₀ = c := List.inj_on_of_nodup_map hidnodup hc₀s hcs hideq
      rw [hc₀]
      show c₀.company_name = row.COMPANY_NAME
      rw [hceq, hcname]
    have hlen : (s.employees.map (respOf s')).length = s.employees.length :=
      List.length_map _ _
    rw [hsemp, List.map_append, List.drop_left' hlen, List.map_map]
    exact emps_names_round_trip hspec.2.2.2 hpt

theorem get_after_upload_round_trip_witness :
    (emptyStore.WF ∧
     upload_employees emptyStore sampleTable =
       (.ok { message := "Data uploaded successfully."
              companies_created := 1
              employees_created := 1 }, storeAfterFirstUpload)) ∧
    ∃ l, (get_employees storeAfterFirstUpload).1 = .ok l ∧
      l.length = emptyStore.employees.length + sampleTable.rows.length ∧
      (l.drop emptyStore.employees.length).map (·.company_name) =
        sampleTable.rows.map (·.COMPANY_NAME) :=
  ⟨⟨⟨List.nodup_nil, fun c hc => (List.not_mem_nil c hc).elim,
     fun e he => (List.not_mem_nil e he).elim⟩, by rfl⟩,
   get_after_upload_round_trip emptyStore sampleTable
     { message := "Data uploaded successfully."
       companies_created := 1
       employees_created := 1 } storeAfterFirstUpload
     ⟨List.nodup_nil, fun c hc => (List.not_mem_nil c hc).elim,
      fun e he => (List.not_mem_nil e he).elim⟩ (by rfl)⟩
